import Mathlib

/-!
Verification of the `usb-log` crate.

The development shallowly embeds the three source files of the crate:

* `src/usb-log/src/log_buffer.rs` — the ring buffer `LogBufferInner<N>`,
  its `write`/`read`/`is_empty` operations, the `core::fmt::Write`
  adapter `write_str`, and the `log::Log` line formatting.
* `src/usb-log/src/usb_log_channel.rs` — the control-transfer (pull)
  channel and its `control_in` handler.
* `src/usb-log/src/usb_log_channel_bulk.rs` — the bulk-endpoint
  (push/poll) channel and its `poll` routine.

Machine integers (`usize`, `u8`) are modelled as `Nat`; no arithmetic is
performed on stored byte values, so no modular reduction of bytes is
needed.  The `critical_section::Mutex<RefCell<...>>` wrapper only
serializes access and delegates to `LogBufferInner`; the embedded
operations act directly on the inner state.  Rust arrays `[u8; N]` are
modelled as `List Nat` of length `N`, with `List.getD`/`List.set` for
indexing (indices stay in bounds under the stated invariant, mirroring
the panic-freedom of the source).
-/

/-- `LogBufferInner::inc_mod_n` from log_buffer.rs: increment an index
modulo `N`, written exactly as in the source. -/
def inc_mod_n (N val : Nat) : Nat :=
  if val + 1 < N then val + 1 else 0

/-- The ring buffer `LogBufferInner<N>` from log_buffer.rs: write cursor,
read cursor and backing storage of `N` bytes. -/
structure LogBufferInner (N : Nat) where
  wr : Nat
  rd : Nat
  buf : List Nat
deriving DecidableEq, Repr

namespace LogBufferInner

/-- `LogBufferInner::new`: both cursors zero, storage zero-filled. -/
def new (N : Nat) : LogBufferInner N :=
  ⟨0, 0, List.replicate N 0⟩

variable {N : Nat}

/-- `LogBufferInner::write`: store one byte unless the buffer is full.
The returned `Bool` is `true` for `Ok(())` and `false` for `Err(())`;
the returned state is the (possibly unchanged) buffer. -/
def write (lb : LogBufferInner N) (byte : Nat) : LogBufferInner N × Bool :=
  if inc_mod_n N lb.wr ≠ lb.rd then
    ({ lb with buf := lb.buf.set lb.wr byte, wr := inc_mod_n N lb.wr }, true)
  else
    (lb, false)

/-- `LogBufferInner::read`: remove and return the oldest byte, or `none`
if the buffer is empty. -/
def read (lb : LogBufferInner N) : Option Nat × LogBufferInner N :=
  if lb.wr ≠ lb.rd then
    (some (lb.buf.getD lb.rd 0), { lb with rd := inc_mod_n N lb.rd })
  else
    (none, lb)

/-- `LogBufferInner::is_empty`. -/
def is_empty (lb : LogBufferInner N) : Bool :=
  lb.wr == lb.rd

/-- `<LogBufferInner as core::fmt::Write>::write_str`: write the bytes of
a string one by one, stopping at the first failed `write`; always
returns `Ok(())` (modelled as `true`). -/
def write_str : LogBufferInner N → List Nat → LogBufferInner N × Bool
  | lb, [] => (lb, true)
  | lb, b :: rest =>
    let r := write lb b
    if r.2 then write_str r.1 rest else (r.1, true)

/-- Abstraction: number of queued bytes, `(wr - rd) mod N` computed in
`Nat` as `(wr + N - rd) % N`. -/
def size (lb : LogBufferInner N) : Nat :=
  (lb.wr + N - lb.rd) % N

/-- Abstraction: the queued bytes in FIFO order, oldest first. -/
def toList (lb : LogBufferInner N) : List Nat :=
  (List.range (size lb)).map fun i => lb.buf.getD ((lb.rd + i) % N) 0

/-- State invariant of the ring buffer: cursors in range, storage of the
declared capacity.  It holds for `new` and is preserved by every
operation. -/
def Inv (lb : LogBufferInner N) : Prop :=
  lb.wr < N ∧ lb.rd < N ∧ lb.buf.length = N

instance (lb : LogBufferInner N) : Decidable lb.Inv := by
  unfold Inv; infer_instance

end LogBufferInner

/-- Helper: a modulus of a number below `2*N` in closed form. -/
lemma two_mod {N : Nat} (_h0 : 0 < N) (a : Nat) (h : a < 2 * N) :
    a % N = if a < N then a else a - N := by
  split_ifs with h1
  · exact Nat.mod_eq_of_lt h1
  · rw [Nat.mod_eq_sub_mod (Nat.le_of_not_lt h1)]
    exact Nat.mod_eq_of_lt (by omega)

/-- Helper: `getD` after `set` at a different index. -/
lemma getD_set_ne (l : List Nat) (i j : Nat) (v d : Nat) (h : i ≠ j) :
    (l.set i v).getD j d = l.getD j d := by
  induction l generalizing i j with
  | nil => simp
  | cons a t ih =>
    cases i with
    | zero => cases j with
      | zero => exact absurd rfl h
      | succ j => simp [List.getD]
    | succ i => cases j with
      | zero => simp [List.getD]
      | succ j => simpa [List.getD] using ih i j (by omega)

/-- Helper: `getD` after `set` at the same, in-bounds index. -/
lemma getD_set_self (l : List Nat) (i v d : Nat) (h : i < l.length) :
    (l.set i v).getD i d = v := by
  induction l generalizing i with
  | nil => simp at h
  | cons a t ih =>
    cases i with
    | zero => simp [List.getD]
    | succ i => simpa [List.getD] using ih i (by simpa using h)

/-- Helper: taking one element past a `set` position splits off the new
element. -/
lemma take_set_succ (l : List Nat) (n v : Nat) (h : n < l.length) :
    (l.set n v).take (n + 1) = l.take n ++ [v] := by
  induction l generalizing n with
  | nil => simp at h
  | cons a t ih =>
    cases n with
    | zero => simp
    | succ n => simpa using ih n (by simpa using h)

namespace LogBufferInner

variable {N : Nat}

lemma inv_new (h0 : 0 < N) : (new N).Inv := by
  refine ⟨h0, h0, ?_⟩
  simp [new]

lemma toList_new : (new N).toList = [] := by
  simp [toList, size, new]

lemma length_toList (lb : LogBufferInner N) : lb.toList.length = lb.size := by
  simp [toList]

lemma size_lt (lb : LogBufferInner N) (h0 : 0 < N) : lb.size < N :=
  Nat.mod_lt _ h0

lemma size_spec (lb : LogBufferInner N) (h : lb.Inv) :
    lb.size = if lb.rd ≤ lb.wr then lb.wr - lb.rd else lb.wr + N - lb.rd := by
  obtain ⟨hw, hr, _⟩ := h
  unfold size
  rw [two_mod (by omega) _ (by omega)]
  split_ifs <;> omega

lemma is_empty_iff (lb : LogBufferInner N) (h : lb.Inv) :
    lb.is_empty = true ↔ lb.size = 0 := by
  rw [size_spec lb h]
  simp only [is_empty, beq_iff_eq]
  obtain ⟨hw, hr, _⟩ := h
  split_ifs <;> omega

lemma full_iff_size (lb : LogBufferInner N) (h : lb.Inv) :
    inc_mod_n N lb.wr = lb.rd ↔ lb.size = N - 1 := by
  obtain ⟨hw, hr, _⟩ := h
  rw [size_spec lb ⟨hw, hr, by assumption⟩]
  unfold inc_mod_n
  split_ifs <;> omega

lemma write_full (lb : LogBufferInner N) (b : Nat)
    (hf : inc_mod_n N lb.wr = lb.rd) : lb.write b = (lb, false) := by
  simp [write, hf]

lemma write_not_full (lb : LogBufferInner N) (b : Nat) (h : lb.Inv)
    (hnf : inc_mod_n N lb.wr ≠ lb.rd) :
    (lb.write b).2 = true ∧ (lb.write b).1.Inv ∧
      (lb.write b).1.size = lb.size + 1 ∧
      (lb.write b).1.toList = lb.toList ++ [b] := by
  obtain ⟨hw, hr, hl⟩ := h
  have h0 : 0 < N := by omega
  have hnotfull : lb.size ≠ N - 1 := fun hc =>
    hnf ((full_iff_size lb ⟨hw, hr, hl⟩).2 hc)
  have hslt : lb.size < N := size_lt lb h0
  have hs := size_spec lb ⟨hw, hr, hl⟩
  have hinc : (lb.wr + 1 < N ∧ inc_mod_n N lb.wr = lb.wr + 1) ∨
      (lb.wr + 1 = N ∧ inc_mod_n N lb.wr = 0) := by
    unfold inc_mod_n
    split_ifs with hcase
    · exact Or.inl ⟨hcase, rfl⟩
    · exact Or.inr ⟨by omega, rfl⟩
  have hwr' : inc_mod_n N lb.wr < N := by
    rcases hinc with ⟨h1, h2⟩ | ⟨h1, h2⟩ <;> omega
  have heq : lb.write b =
      (⟨inc_mod_n N lb.wr, lb.rd, lb.buf.set lb.wr b⟩, true) := by
    simp [write, hnf]
  have hsz' : (inc_mod_n N lb.wr + N - lb.rd) % N = lb.size + 1 := by
    rw [two_mod h0 _ (by omega)]
    rcases hinc with ⟨h1, h2⟩ | ⟨h1, h2⟩ <;> rw [h2] <;>
      split_ifs at hs ⊢ <;> omega
  have hpos : (lb.rd + lb.size) % N = lb.wr := by
    rw [two_mod h0 _ (by omega)]
    split_ifs at hs ⊢ <;> omega
  rw [heq]
  refine ⟨rfl, ⟨hwr', hr, by simpa using hl⟩, hsz', ?_⟩
  show (List.range ((inc_mod_n N lb.wr + N - lb.rd) % N)).map
      (fun i => (lb.buf.set lb.wr b).getD ((lb.rd + i) % N) 0) = _
  rw [hsz', List.range_succ, List.map_append, List.map_singleton]
  congr 1
  · -- existing bytes are untouched
    unfold toList
    refine List.map_congr_left fun i hi => ?_
    rw [List.mem_range] at hi
    have hifull : (lb.rd + i) % N ≠ lb.wr := by
      rw [two_mod h0 _ (by omega)]
      split_ifs at hs ⊢ <;> omega
    exact getD_set_ne _ _ _ _ _ (fun hc => hifull hc.symm)
  · -- the slot at `wr` now holds `b`
    rw [hpos]
    rw [getD_set_self _ _ _ _ (by omega)]

lemma read_empty (lb : LogBufferInner N) (he : lb.wr = lb.rd) :
    lb.read = (none, lb) := by
  simp [read, he]

lemma read_pop (lb : LogBufferInner N) (h : lb.Inv) (hne : lb.wr ≠ lb.rd) :
    (lb.read).1 = some (lb.buf.getD lb.rd 0) ∧ (lb.read).2.Inv ∧
      0 < lb.size ∧ (lb.read).2.size = lb.size - 1 ∧
      lb.toList = lb.buf.getD lb.rd 0 :: (lb.read).2.toList := by
  obtain ⟨hw, hr, hl⟩ := h
  have h0 : 0 < N := by omega
  have hs := size_spec lb ⟨hw, hr, hl⟩
  have hspos : 0 < lb.size := by split_ifs at hs <;> omega
  have hslt : lb.size < N := size_lt lb h0
  have hinc : (lb.rd + 1 < N ∧ inc_mod_n N lb.rd = lb.rd + 1) ∨
      (lb.rd + 1 = N ∧ inc_mod_n N lb.rd = 0) := by
    unfold inc_mod_n
    split_ifs with hcase
    · exact Or.inl ⟨hcase, rfl⟩
    · exact Or.inr ⟨by omega, rfl⟩
  have hrd' : inc_mod_n N lb.rd < N := by
    rcases hinc with ⟨h1, h2⟩ | ⟨h1, h2⟩ <;> omega
  have heq : lb.read =
      (some (lb.buf.getD lb.rd 0), ⟨lb.wr, inc_mod_n N lb.rd, lb.buf⟩) := by
    simp [read, hne]
  have hsz' : (lb.wr + N - inc_mod_n N lb.rd) % N = lb.size - 1 := by
    rw [two_mod h0 _ (by omega)]
    rcases hinc with ⟨h1, h2⟩ | ⟨h1, h2⟩ <;> rw [h2] <;>
      split_ifs at hs ⊢ <;> omega
  rw [heq]
  refine ⟨rfl, ⟨hw, hrd', hl⟩, hspos, hsz', ?_⟩
  unfold toList
  show (List.range lb.size).map _ = lb.buf.getD lb.rd 0 ::
    (List.range ((lb.wr + N - inc_mod_n N lb.rd) % N)).map _
  rw [hsz']
  obtain ⟨m, hm⟩ : ∃ m, lb.size = m + 1 := ⟨lb.size - 1, by omega⟩
  rw [hm]
  rw [List.range_succ_eq_map]
  simp only [List.map_cons, List.map_map, Nat.add_sub_cancel]
  congr 1
  · rw [Nat.add_zero, Nat.mod_eq_of_lt hr]
  · refine List.map_congr_left fun i hi => ?_
    rw [List.mem_range] at hi
    show lb.buf.getD ((lb.rd + (i + 1)) % N) 0 =
      lb.buf.getD ((inc_mod_n N lb.rd + i) % N) 0
    congr 1
    rw [two_mod h0 _ (by omega), two_mod h0 _ (by omega)]
    rcases hinc with ⟨h1, h2⟩ | ⟨h1, h2⟩ <;> rw [h2] <;>
      split_ifs <;> omega

end LogBufferInner

/-- A single ring-buffer operation: `wrOp b` is `write(b)`, `rdOp` is
`read()`. -/
inductive Op where
  | wrOp (b : Nat)
  | rdOp
deriving DecidableEq, Repr

namespace LogBufferInner

variable {N : Nat}

/-- Run a sequence of operations on the ring buffer, collecting the
final state, the list of successfully written bytes (in write order)
and the list of bytes returned by successful reads (in read order). -/
def runOps : LogBufferInner N → List Op → LogBufferInner N × List Nat × List Nat
  | lb, [] => (lb, [], [])
  | lb, Op.wrOp b :: rest =>
    let r := lb.write b
    let t := runOps r.1 rest
    (t.1, if r.2 then b :: t.2.1 else t.2.1, t.2.2)
  | lb, Op.rdOp :: rest =>
    let r := lb.read
    let t := runOps r.2 rest
    (t.1, t.2.1, match r.1 with | some b => b :: t.2.2 | none => t.2.2)

/-- Master invariant of an operation run: the invariant is preserved and
the successfully written bytes are exactly the bytes already read
followed by the bytes still queued. -/
lemma runOps_spec (ops : List Op) (lb : LogBufferInner N) (h : lb.Inv) :
    (lb.runOps ops).1.Inv ∧
      (lb.runOps ops).2.2 ++ (lb.runOps ops).1.toList =
        lb.toList ++ (lb.runOps ops).2.1 := by
  induction ops generalizing lb with
  | nil => simpa [runOps] using h
  | cons op rest ih =>
    cases op with
    | wrOp b =>
      by_cases hf : inc_mod_n N lb.wr = lb.rd
      · have hw := write_full lb b hf
        simp only [runOps, hw]
        have := ih lb h
        simpa using this
      · obtain ⟨hok, hinv, _, hlist⟩ := write_not_full lb b h hf
        simp only [runOps, hok, if_true]
        obtain ⟨hi1, hi2⟩ := ih _ hinv
        refine ⟨hi1, ?_⟩
        rw [hi2, hlist, List.append_assoc]
        simp
    | rdOp =>
      by_cases he : lb.wr = lb.rd
      · have hr := read_empty lb he
        simp only [runOps, hr]
        have := ih lb h
        simpa using this
      · obtain ⟨hsome, hinv, _, _, hlist⟩ := read_pop lb h he
        simp only [runOps, hsome]
        obtain ⟨hi1, hi2⟩ := ih _ hinv
        refine ⟨hi1, ?_⟩
        rw [List.cons_append, hi2, hlist, List.cons_append]

/-- The bytes successfully kept by `write_str`: the queued list is
extended by the longest prefix of the string that fits, and the result
is always `Ok`. -/
lemma write_str_spec (s : List Nat) (lb : LogBufferInner N) (h : lb.Inv) :
    (lb.write_str s).2 = true ∧ (lb.write_str s).1.Inv ∧
      (lb.write_str s).1.toList = lb.toList ++ s.take (N - 1 - lb.size) := by
  induction s generalizing lb with
  | nil => simpa [write_str] using h
  | cons b rest ih =>
    by_cases hf : inc_mod_n N lb.wr = lb.rd
    · have hw := write_full lb b hf
      have hsz := (full_iff_size lb h).1 hf
      simp only [write_str, hw]
      simp [hsz, h]
    · obtain ⟨hok, hinv, hsz, hlist⟩ := write_not_full lb b h hf
      have h0 : 0 < N := by
        obtain ⟨hw, _, _⟩ := h; omega
      have hszlt : lb.size < N - 1 := by
        have h1 : lb.size ≠ N - 1 := fun hc => hf ((full_iff_size lb h).2 hc)
        have h2 : lb.size < N := size_lt lb h0
        omega
      simp only [write_str, hok, if_true]
      obtain ⟨hi1, hi2, hi3⟩ := ih _ hinv
      refine ⟨hi1, hi2, ?_⟩
      rw [hi3, hlist, hsz, List.append_assoc]
      have harith : N - 1 - lb.size = (N - 1 - (lb.size + 1)) + 1 := by omega
      rw [harith]
      simp

end LogBufferInner

/-- C1: For every sequence of successful `write(byte)` and `read()`
operations on a `RingBuffer<N>` (with a positive capacity `N`), `read()`
returns the bytes in exactly the order they were successfully written
(FIFO), each successfully written byte is returned at most once, and no
byte that was never written is ever returned.  Formally: starting from
the fresh buffer, the bytes returned by reads followed by the bytes
still queued are exactly the successfully written bytes; in particular
the read sequence is a prefix of the written sequence. -/
theorem C1_ringbuffer_fifo (N : Nat) (h0 : 0 < N) (ops : List Op) :
    ((LogBufferInner.new N).runOps ops).2.2 ++
        ((LogBufferInner.new N).runOps ops).1.toList =
      ((LogBufferInner.new N).runOps ops).2.1 ∧
    ((LogBufferInner.new N).runOps ops).2.2 =
      ((LogBufferInner.new N).runOps ops).2.1.take
        ((LogBufferInner.new N).runOps ops).2.2.length := by
  obtain ⟨_, hspec⟩ :=
    LogBufferInner.runOps_spec ops (LogBufferInner.new N)
      (LogBufferInner.inv_new h0)
  rw [LogBufferInner.toList_new] at hspec
  simp only [List.nil_append] at hspec
  refine ⟨hspec, ?_⟩
  rw [← hspec, List.take_left]

/-- Witness for C1 at `N = 3` with a concrete operation sequence:
writes of 1, 2, 3, 4 interleaved with reads; the write of 4 may or may
not fit, and the reads return 1, 2, 3 in FIFO order. -/
theorem C1_ringbuffer_fifo_witness :
    (0 < 3 ∧
      ((LogBufferInner.new 3).runOps
          [Op.wrOp 1, Op.wrOp 2, Op.wrOp 3, Op.rdOp, Op.wrOp 4,
            Op.rdOp, Op.rdOp]).2.2 ++
        ((LogBufferInner.new 3).runOps
          [Op.wrOp 1, Op.wrOp 2, Op.wrOp 3, Op.rdOp, Op.wrOp 4,
            Op.rdOp, Op.rdOp]).1.toList =
        ((LogBufferInner.new 3).runOps
          [Op.wrOp 1, Op.wrOp 2, Op.wrOp 3, Op.rdOp, Op.wrOp 4,
            Op.rdOp, Op.rdOp]).2.1) ∧
    ((LogBufferInner.new 3).runOps
        [Op.wrOp 1, Op.wrOp 2, Op.wrOp 3, Op.rdOp, Op.wrOp 4,
          Op.rdOp, Op.rdOp]).2.2 = [1, 2, 4] :=
  ⟨⟨by decide,
    (C1_ringbuffer_fifo 3 (by decide)
      [Op.wrOp 1, Op.wrOp 2, Op.wrOp 3, Op.rdOp, Op.wrOp 4,
        Op.rdOp, Op.rdOp]).1⟩,
   by decide⟩

/-- C2: For every sequence of write and read operations on a
`RingBuffer<N>` (positive capacity `N`), the number of bytes
successfully written minus the number of bytes successfully read never
exceeds `N-1`, equals the number of currently queued bytes
`(wr - rd) mod N` (computed as `(wr + N - rd) % N`), and `is_empty()`
returns true if and only if that difference is zero. -/
theorem C2_capacity_invariant (N : Nat) (h0 : 0 < N) (ops : List Op) :
    ((LogBufferInner.new N).runOps ops).2.1.length -
        ((LogBufferInner.new N).runOps ops).2.2.length =
      (((LogBufferInner.new N).runOps ops).1.wr + N -
          ((LogBufferInner.new N).runOps ops).1.rd) % N ∧
    ((LogBufferInner.new N).runOps ops).2.1.length -
        ((LogBufferInner.new N).runOps ops).2.2.length ≤ N - 1 ∧
    (((LogBufferInner.new N).runOps ops).1.is_empty = true ↔
      ((LogBufferInner.new N).runOps ops).2.1.length =
        ((LogBufferInner.new N).runOps ops).2.2.length) := by
  obtain ⟨hinv, hspec⟩ :=
    LogBufferInner.runOps_spec ops (LogBufferInner.new N)
      (LogBufferInner.inv_new h0)
  rw [LogBufferInner.toList_new] at hspec
  simp only [List.nil_append] at hspec
  have hlen : ((LogBufferInner.new N).runOps ops).2.2.length +
      ((LogBufferInner.new N).runOps ops).1.size =
      ((LogBufferInner.new N).runOps ops).2.1.length := by
    rw [← LogBufferInner.length_toList, ← List.length_append, hspec]
  have hlt := LogBufferInner.size_lt ((LogBufferInner.new N).runOps ops).1 h0
  have hemp := LogBufferInner.is_empty_iff ((LogBufferInner.new N).runOps ops).1 hinv
  refine ⟨?_, by omega, ?_⟩
  · show _ = ((LogBufferInner.new N).runOps ops).1.size
    omega
  · rw [hemp]
    omega

/-- Witness for C2 at `N = 3` with a concrete operation sequence. -/
theorem C2_capacity_invariant_witness :
    (0 < 3 ∧
      (((LogBufferInner.new 3).runOps
            [Op.wrOp 1, Op.wrOp 2, Op.wrOp 3, Op.rdOp]).1.is_empty = true ↔
        ((LogBufferInner.new 3).runOps
            [Op.wrOp 1, Op.wrOp 2, Op.wrOp 3, Op.rdOp]).2.1.length =
          ((LogBufferInner.new 3).runOps
            [Op.wrOp 1, Op.wrOp 2, Op.wrOp 3, Op.rdOp]).2.2.length)) ∧
    ((LogBufferInner.new 3).runOps
        [Op.wrOp 1, Op.wrOp 2, Op.wrOp 3, Op.rdOp]).2.1.length -
      ((LogBufferInner.new 3).runOps
        [Op.wrOp 1, Op.wrOp 2, Op.wrOp 3, Op.rdOp]).2.2.length = 1 :=
  ⟨⟨by decide,
    (C2_capacity_invariant 3 (by decide)
      [Op.wrOp 1, Op.wrOp 2, Op.wrOp 3, Op.rdOp]).2.2⟩,
   by decide⟩

/-- C3: For every ring-buffer state satisfying the invariant (with
`N ≥ 2`, so that at least one byte can be queued) in which the buffer is
full (incrementing `wr` modulo `N` equals `rd`), `write(byte)` returns
the `Full` error and leaves `wr`, `rd` and the backing storage
completely unchanged; moreover the buffer then holds `N-1` queued bytes,
and after one `read()` followed by one `write(byte)` both operations
succeed and the buffer again holds `N-1` queued bytes. -/
theorem C3_full_write_rejected (N : Nat) (lb : LogBufferInner N)
    (b bNew : Nat) (hInv : lb.Inv) (hN : 2 ≤ N)
    (hf : inc_mod_n N lb.wr = lb.rd) :
    lb.size = N - 1 ∧
    lb.write b = (lb, false) ∧
    (∃ x, (lb.read).1 = some x) ∧
    ((lb.read).2.write bNew).2 = true ∧
    ((lb.read).2.write bNew).1.size = N - 1 := by
  have hsz := (LogBufferInner.full_iff_size lb hInv).1 hf
  have hne : lb.wr ≠ lb.rd := by
    intro hc
    rw [hc] at hf
    unfold inc_mod_n at hf
    obtain ⟨hw, hr, _⟩ := hInv
    split_ifs at hf <;> omega
  obtain ⟨hsome, hinv2, hspos, hsz2, _⟩ := LogBufferInner.read_pop lb hInv hne
  have hnf2 : inc_mod_n N (lb.read).2.wr ≠ (lb.read).2.rd := by
    intro hc
    have := (LogBufferInner.full_iff_size (lb.read).2 hinv2).1 hc
    omega
  obtain ⟨hok, _, hsz3, _⟩ :=
    LogBufferInner.write_not_full (lb.read).2 bNew hinv2 hnf2
  exact ⟨hsz, LogBufferInner.write_full lb b hf, ⟨_, hsome⟩, hok, by omega⟩

/-- Witness for C3 at `N = 3` on the concrete full buffer with cursors
`wr = 2`, `rd = 0` holding the queued bytes 9, 8. -/
theorem C3_full_write_rejected_witness :
    ((⟨2, 0, [9, 8, 7]⟩ : LogBufferInner 3).Inv ∧ 2 ≤ 3 ∧
      inc_mod_n 3 2 = 0 ∧
      (⟨2, 0, [9, 8, 7]⟩ : LogBufferInner 3).write 5 =
        (⟨2, 0, [9, 8, 7]⟩, false)) ∧
    (⟨2, 0, [9, 8, 7]⟩ : LogBufferInner 3).toList = [9, 8] :=
  ⟨⟨by decide, by decide, by decide,
    (C3_full_write_rejected 3 ⟨2, 0, [9, 8, 7]⟩ 5 6 (by decide) (by decide)
      (by decide)).2.1⟩,
   by decide⟩

/-- `usb_device::control::RequestType` (external enum, at the boundary of
usb_log_channel.rs). -/
inductive RequestType where
  | Standard
  | Class
  | Vendor
  | Reserved
deriving DecidableEq, Repr

/-- `usb_device::control::Recipient` (external enum, at the boundary of
usb_log_channel.rs). -/
inductive Recipient where
  | Device
  | Interface
  | Endpoint
  | Other
deriving DecidableEq, Repr

/-- The fields of a `usb_device::control::Request` read by
`UsbLogChannel::control_in` in usb_log_channel.rs.  `index` and `length`
are `u16` values, `request` a `u8`; all modelled as `Nat`. -/
structure ControlRequest where
  request_type : RequestType
  recipient : Recipient
  request : Nat
  index : Nat
  length : Nat
deriving DecidableEq, Repr

/-- `LOG_READ_REQUEST` from usb_log_channel.rs. -/
def LOG_READ_REQUEST : Nat := 0

/-- The control-transfer based `UsbLogChannel` from usb_log_channel.rs:
an interface number and a reference to the log buffer (the string index
and allocator are framework bookkeeping with no effect on the claims'
behaviour). -/
structure UsbLogChannelPull (N : Nat) where
  iface : Nat
  log_buffer : LogBufferInner N
deriving DecidableEq, Repr

namespace UsbLogChannelPull

variable {N : Nat}

/-- The drain loop inside `control_in`'s `accept` closure: iterate over
the first `k` slots of the response buffer, reading one byte per slot
and stopping early when the log buffer reports empty.  Returns the
buffer state after draining and the bytes placed in the response (the
response payload of length `len`). -/
def drainLoop : LogBufferInner N → Nat → LogBufferInner N × List Nat
  | lb, 0 => (lb, [])
  | lb, Nat.succ k =>
    let r := lb.read
    match r.1 with
    | none => (r.2, [])
    | some b =>
      let t := drainLoop r.2 k
      (t.1, b :: t.2)

/-- `UsbLogChannel::control_in` from usb_log_channel.rs.  `dlen` is the
length of the mutable byte slice the USB stack passes to the `accept`
closure (the stack's control transfer buffer).  The second component is
`none` when the handler returns without touching the transfer (the
request does not match), and `some bytes` when the transfer is accepted
with the given payload (`Ok(len)` with `data[..len] = bytes`). -/
def control_in (ch : UsbLogChannelPull N) (req : ControlRequest)
    (dlen : Nat) : UsbLogChannelPull N × Option (List Nat) :=
  if req.request_type ≠ RequestType.Vendor ∨
      req.recipient ≠ Recipient.Interface ∨
      req.index ≠ ch.iface ∨
      req.request ≠ LOG_READ_REQUEST then
    (ch, none)
  else
    let max_len := min req.length dlen
    let r := drainLoop ch.log_buffer max_len
    ({ ch with log_buffer := r.1 }, some r.2)

/-- The drain loop removes exactly the first `min k (queued)` bytes, in
FIFO order. -/
lemma drainLoop_spec (k : Nat) (lb : LogBufferInner N) (h : lb.Inv) :
    (drainLoop lb k).2 = lb.toList.take k ∧
      (drainLoop lb k).1.toList = lb.toList.drop k ∧
      (drainLoop lb k).1.Inv := by
  induction k generalizing lb with
  | zero => simpa [drainLoop] using h
  | succ k ih =>
    by_cases he : lb.wr = lb.rd
    · have hr := LogBufferInner.read_empty lb he
      have hsz : lb.size = 0 := by
        unfold LogBufferInner.size
        rw [he]
        simp [Nat.add_sub_cancel, Nat.mod_self]
      have htl : lb.toList = [] := by
        unfold LogBufferInner.toList
        rw [hsz]
        simp
      simp only [drainLoop, hr]
      simpa [htl] using h
    · obtain ⟨hsome, hinv2, _, _, hlist⟩ := LogBufferInner.read_pop lb h he
      simp only [drainLoop, hsome]
      obtain ⟨hi1, hi2, hi3⟩ := ih _ hinv2
      refine ⟨?_, ?_, hi3⟩
      · rw [hi1, hlist, List.take_succ_cons]
      · rw [hi2, hlist, List.drop_succ_cons]

end UsbLogChannelPull

/-- C9: For every control-IN request that fails any one of the four
matching criteria (type Vendor, recipient Interface, index equal to this
channel's interface number, request identifier 0), `control_in` returns
without draining any byte from the ring buffer and without accepting or
rejecting the transfer: the channel state is completely unchanged and no
response is produced, leaving the request for other components. -/
theorem C9_control_in_ignores_non_matching (N : Nat)
    (ch : UsbLogChannelPull N) (req : ControlRequest) (dlen : Nat)
    (hmiss : req.request_type ≠ RequestType.Vendor ∨
      req.recipient ≠ Recipient.Interface ∨
      req.index ≠ ch.iface ∨
      req.request ≠ LOG_READ_REQUEST) :
    ch.control_in req dlen = (ch, none) := by
  simp only [UsbLogChannelPull.control_in, hmiss, if_pos]

/-- Witness for C9: a request with the wrong recipient (Device instead
of Interface) is ignored by a concrete channel holding queued bytes. -/
theorem C9_control_in_ignores_non_matching_witness :
    (((⟨RequestType.Vendor, Recipient.Device, 0, 2, 10⟩ :
          ControlRequest).request_type ≠ RequestType.Vendor ∨
      (⟨RequestType.Vendor, Recipient.Device, 0, 2, 10⟩ :
          ControlRequest).recipient ≠ Recipient.Interface ∨
      (⟨RequestType.Vendor, Recipient.Device, 0, 2, 10⟩ :
          ControlRequest).index ≠
        (⟨2, ⟨2, 0, [5, 6, 0, 0]⟩⟩ : UsbLogChannelPull 4).iface ∨
      (⟨RequestType.Vendor, Recipient.Device, 0, 2, 10⟩ :
          ControlRequest).request ≠ LOG_READ_REQUEST) ∧
      (⟨2, ⟨2, 0, [5, 6, 0, 0]⟩⟩ : UsbLogChannelPull 4).control_in
          ⟨RequestType.Vendor, Recipient.Device, 0, 2, 10⟩ 128 =
        (⟨2, ⟨2, 0, [5, 6, 0, 0]⟩⟩, none)) ∧
    (⟨2, 0, [5, 6, 0, 0]⟩ : LogBufferInner 4).toList = [5, 6] :=
  ⟨⟨by decide,
    C9_control_in_ignores_non_matching 4 ⟨2, ⟨2, 0, [5, 6, 0, 0]⟩⟩
      ⟨RequestType.Vendor, Recipient.Device, 0, 2, 10⟩ 128 (by decide)⟩,
   by decide⟩

/-- C4 counterexample: the claim says a matching request with requested
length `L` drains exactly `min(L, queued)` bytes, but `control_in` also
caps the drain at the length of the response buffer supplied by the USB
stack (`max_len = request_len.min(data.len())` in the source).  With two
bytes queued, `L = 2` and a one-byte stack buffer, only one byte is
drained although `min(L, queued) = 2`. -/
theorem C4_control_in_cex :
    ((⟨2, ⟨2, 0, [5, 6, 0, 0]⟩⟩ : UsbLogChannelPull 4).control_in
        ⟨RequestType.Vendor, Recipient.Interface, 0, 2, 2⟩ 1).2 =
      some [5] ∧
    min (⟨RequestType.Vendor, Recipient.Interface, 0, 2, 2⟩ :
        ControlRequest).length
      (⟨2, 0, [5, 6, 0, 0]⟩ : LogBufferInner 4).size = 2 ∧
    ([5] : List Nat).length ≠ 2 := by
  decide

/-- C4 (amended): For every control-IN request matching all four
criteria (type Vendor, recipient Interface, index equal to this
channel's interface number, request identifier 0) with requested length
`L`, and a response buffer of `dlen` bytes supplied by the USB stack,
`control_in` drains exactly `min(L, dlen, queued)` bytes from the ring
buffer in FIFO order into the response and reports that count as the
transferred length — so exactly `min(L, queued)` whenever the stack
buffer holds at least `L` bytes; when the ring buffer is empty the
response is a zero-length accepted transfer, not a rejection. -/
theorem C4_control_in_drains (N : Nat) (ch : UsbLogChannelPull N)
    (req : ControlRequest) (dlen : Nat) (hInv : ch.log_buffer.Inv)
    (ht : req.request_type = RequestType.Vendor)
    (hrec : req.recipient = Recipient.Interface)
    (hidx : req.index = ch.iface)
    (hreq : req.request = LOG_READ_REQUEST) :
    (ch.control_in req dlen).2 =
      some (ch.log_buffer.toList.take (min req.length dlen)) ∧
    (ch.log_buffer.toList.take (min req.length dlen)).length =
      min (min req.length dlen) ch.log_buffer.size ∧
    (ch.control_in req dlen).1.log_buffer.toList =
      ch.log_buffer.toList.drop (min req.length dlen) ∧
    (ch.log_buffer.size = 0 → (ch.control_in req dlen).2 = some []) := by
  have hmatch : ¬(req.request_type ≠ RequestType.Vendor ∨
      req.recipient ≠ Recipient.Interface ∨
      req.index ≠ ch.iface ∨
      req.request ≠ LOG_READ_REQUEST) := by
    simp [ht, hrec, hidx, hreq]
  have hceq : ch.control_in req dlen =
      ({ ch with log_buffer :=
          (UsbLogChannelPull.drainLoop ch.log_buffer (min req.length dlen)).1 },
        some (UsbLogChannelPull.drainLoop ch.log_buffer
          (min req.length dlen)).2) := by
    simp only [UsbLogChannelPull.control_in]
    rw [if_neg hmatch]
  obtain ⟨hd1, hd2, _⟩ :=
    UsbLogChannelPull.drainLoop_spec (min req.length dlen) ch.log_buffer hInv
  have hlen : (ch.log_buffer.toList.take (min req.length dlen)).length =
      min (min req.length dlen) ch.log_buffer.size := by
    rw [List.length_take, LogBufferInner.length_toList]
  refine ⟨by rw [hceq, hd1], hlen, by rw [hceq]; exact hd2, fun hz => ?_⟩
  have htl : ch.log_buffer.toList = [] := by
    have := LogBufferInner.length_toList ch.log_buffer
    rw [hz] at this
    exact List.length_eq_zero.1 this
  rw [hceq, hd1, htl]
  simp

/-- Witness for C4 (amended), matching the spec's worked example:
requesting length 10 (with a 128-byte stack buffer) from a buffer with
the three queued bytes 5, 6, 7 returns exactly those bytes and leaves
the buffer empty. -/
theorem C4_control_in_drains_witness :
    ((⟨3, 0, [5, 6, 7, 0]⟩ : LogBufferInner 4).Inv ∧
      ((⟨2, ⟨3, 0, [5, 6, 7, 0]⟩⟩ : UsbLogChannelPull 4).control_in
          ⟨RequestType.Vendor, Recipient.Interface, 0, 2, 10⟩ 128).2 =
        some ((⟨3, 0, [5, 6, 7, 0]⟩ : LogBufferInner 4).toList.take
          (min 10 128))) ∧
    ((⟨2, ⟨3, 0, [5, 6, 7, 0]⟩⟩ : UsbLogChannelPull 4).control_in
        ⟨RequestType.Vendor, Recipient.Interface, 0, 2, 10⟩ 128).2 =
      some [5, 6, 7] ∧
    ((⟨2, ⟨3, 0, [5, 6, 7, 0]⟩⟩ : UsbLogChannelPull 4).control_in
        ⟨RequestType.Vendor, Recipient.Interface, 0, 2, 10⟩ 128).1.log_buffer.toList
      = [] :=
  ⟨⟨by decide,
    (C4_control_in_drains 4 ⟨2, ⟨3, 0, [5, 6, 7, 0]⟩⟩
      ⟨RequestType.Vendor, Recipient.Interface, 0, 2, 10⟩ 128 (by decide)
      rfl rfl rfl rfl).1⟩,
   by decide, by decide⟩

namespace LogBufferInner

variable {N : Nat}

lemma size_zero_of_eq (lb : LogBufferInner N) (he : lb.wr = lb.rd) :
    lb.size = 0 := by
  unfold size
  rw [he]
  simp [Nat.add_sub_cancel, Nat.mod_self]

lemma toList_nil_of_eq (lb : LogBufferInner N) (he : lb.wr = lb.rd) :
    lb.toList = [] := by
  unfold toList
  rw [size_zero_of_eq lb he]
  simp

end LogBufferInner

/-- `EP_SIZE` from usb_log_channel_bulk.rs: the bulk endpoint's maximum
packet size. -/
def EP_SIZE : Nat := 64

/-- The bulk-endpoint `UsbLogChannel` from usb_log_channel_bulk.rs: a
reference to the log buffer, the packet staging buffer of `EP_SIZE`
bytes and its occupancy length.  The interface number, string index and
endpoint handle are framework bookkeeping with no effect on the claims'
behaviour. -/
structure UsbLogChannelBulk (N : Nat) where
  log_buffer : LogBufferInner N
  packet_buffer : List Nat
  packet_buffer_len : Nat
deriving DecidableEq, Repr

namespace UsbLogChannelBulk

variable {N : Nat}

/-- `UsbLogChannel::new` from usb_log_channel_bulk.rs: zeroed staging
buffer and — exactly as in the source — `packet_buffer_len = 1`. -/
def new (lb : LogBufferInner N) : UsbLogChannelBulk N :=
  ⟨lb, List.replicate EP_SIZE 0, 1⟩

/-- The staging loop inside `poll`: `while let Some(byte) = read()`s
into `packet_buffer[len]`, incrementing `len`, and stops once `len`
reaches `EP_SIZE - 1`.  The source checks the bound after the
increment; the counter `k` here is the number of increments still
allowed, so calling with `k = EP_SIZE - 1 - len` reproduces the source
loop exactly for every entry occupancy `len < EP_SIZE - 1` (the only
caller, `poll`, enters it with `len = 0`). -/
def fillLoopGo : LogBufferInner N → List Nat → Nat → Nat →
    LogBufferInner N × List Nat × Nat
  | lb, pkt, len, 0 => (lb, pkt, len)
  | lb, pkt, len, Nat.succ k =>
    let r := lb.read
    match r.1 with
    | none => (r.2, pkt, len)
    | some b => fillLoopGo r.2 (pkt.set len b) (len + 1) k

/-- The staging loop of `poll`, entered with occupancy `len`. -/
def fillLoop (lb : LogBufferInner N) (pkt : List Nat) (len : Nat) :
    LogBufferInner N × List Nat × Nat :=
  fillLoopGo lb pkt len (EP_SIZE - 1 - len)

/-- The staging phase of `poll` — the first `if` of the source: when the
staging buffer is empty, run the fill loop; otherwise keep the existing
staged bytes.  Returns the log buffer, staging buffer and occupancy as
they stand just before the endpoint write is considered. -/
def stage (c : UsbLogChannelBulk N) : LogBufferInner N × List Nat × Nat :=
  if c.packet_buffer_len = 0 then
    fillLoop c.log_buffer c.packet_buffer c.packet_buffer_len
  else
    (c.log_buffer, c.packet_buffer, c.packet_buffer_len)

/-- `UsbLogChannel::poll` from usb_log_channel_bulk.rs.  `epOk` models
whether `self.ep_in.write(..)` succeeds (the endpoint is ready); the
write is attempted only when the staging buffer is non-empty, and only
a successful write clears the occupancy.  Returns the new channel
state, the packet submitted to the endpoint (`none` when no write was
attempted) and whether a transmission succeeded. -/
def poll (c : UsbLogChannelBulk N) (epOk : Bool) :
    UsbLogChannelBulk N × Option (List Nat) × Bool :=
  if 0 < (stage c).2.2 then
    if epOk then
      (⟨(stage c).1, (stage c).2.1, 0⟩,
        some ((stage c).2.1.take (stage c).2.2), true)
    else
      (⟨(stage c).1, (stage c).2.1, (stage c).2.2⟩,
        some ((stage c).2.1.take (stage c).2.2), false)
  else
    (⟨(stage c).1, (stage c).2.1, (stage c).2.2⟩, none, false)

/-- The staging loop drains exactly `min (queued) k` bytes in FIFO
order, appending them at the staging buffer's occupancy position. -/
lemma fillLoopGo_spec (k : Nat) (lb : LogBufferInner N) (pkt : List Nat)
    (len : Nat) (hInv : lb.Inv) (hpkt : pkt.length = EP_SIZE)
    (hbound : len + k ≤ EP_SIZE - 1) :
    (fillLoopGo lb pkt len k).1.Inv ∧
      (fillLoopGo lb pkt len k).2.1.length = EP_SIZE ∧
      (fillLoopGo lb pkt len k).2.2 = len + min lb.size k ∧
      (fillLoopGo lb pkt len k).2.1.take (fillLoopGo lb pkt len k).2.2 =
        pkt.take len ++ lb.toList.take k ∧
      (fillLoopGo lb pkt len k).1.toList = lb.toList.drop k := by
  induction k generalizing lb pkt len with
  | zero =>
    refine ⟨hInv, hpkt, by simp [fillLoopGo], by simp [fillLoopGo],
      by simp [fillLoopGo]⟩
  | succ k ih =>
    by_cases he : lb.wr = lb.rd
    · have hr := LogBufferInner.read_empty lb he
      have htl := LogBufferInner.toList_nil_of_eq lb he
      have hsz := LogBufferInner.size_zero_of_eq lb he
      simp only [fillLoopGo, hr]
      refine ⟨hInv, hpkt, by simp [hsz], ?_, by simp [htl]⟩
      simp [htl]
    · obtain ⟨hsome, hinv2, hspos, hsz2, hlist⟩ :=
        LogBufferInner.read_pop lb hInv he
      have hEP : EP_SIZE = 64 := rfl
      simp only [fillLoopGo, hsome]
      obtain ⟨hi1, hi2, hi3, hi4, hi5⟩ := ih (lb.read).2 (pkt.set len _)
        (len + 1) hinv2 (by simpa using hpkt) (by omega)
      refine ⟨hi1, hi2, ?_, ?_, ?_⟩
      · rw [hi3, hsz2]
        omega
      · rw [hi4, hlist, take_set_succ pkt len _ (by omega),
          List.take_succ_cons, List.append_assoc, List.singleton_append]
      · rw [hi5, hlist, List.drop_succ_cons]

end UsbLogChannelBulk

namespace UsbLogChannelBulk

variable {N : Nat}

/-- When `poll` starts with an empty staging buffer, a non-empty log
buffer and a ready endpoint, it transmits the FIFO prefix of the queued
bytes, at most `EP_SIZE - 1` of them, and marks the staging buffer
empty. -/
lemma poll_drain_spec (c : UsbLogChannelBulk N) (hInv : c.log_buffer.Inv)
    (hpkt : c.packet_buffer.length = EP_SIZE)
    (hlen : c.packet_buffer_len = 0) (hq : 0 < c.log_buffer.size) :
    (c.poll true).2.1 = some (c.log_buffer.toList.take (EP_SIZE - 1)) ∧
    (c.poll true).2.2 = true ∧
    (c.poll true).1.packet_buffer_len = 0 ∧
    (c.poll true).1.packet_buffer.length = EP_SIZE ∧
    (c.poll true).1.log_buffer.toList =
      c.log_buffer.toList.drop (EP_SIZE - 1) ∧
    (c.poll true).1.log_buffer.Inv := by
  have hEP : EP_SIZE = 64 := rfl
  obtain ⟨hi1, hi2, hi3, hi4, hi5⟩ :=
    fillLoopGo_spec (EP_SIZE - 1) c.log_buffer c.packet_buffer 0 hInv hpkt
      (by omega)
  have hstage : stage c =
      fillLoopGo c.log_buffer c.packet_buffer 0 (EP_SIZE - 1) := by
    unfold stage fillLoop
    rw [if_pos hlen, hlen, Nat.sub_zero]
  have hFpos :
      0 < (fillLoopGo c.log_buffer c.packet_buffer 0 (EP_SIZE - 1)).2.2 := by
    rw [hi3, hEP] at *
    omega
  have hpolleq : c.poll true =
      (⟨(fillLoopGo c.log_buffer c.packet_buffer 0 (EP_SIZE - 1)).1,
          (fillLoopGo c.log_buffer c.packet_buffer 0 (EP_SIZE - 1)).2.1, 0⟩,
        some ((fillLoopGo c.log_buffer c.packet_buffer 0 (EP_SIZE - 1)).2.1.take
          (fillLoopGo c.log_buffer c.packet_buffer 0 (EP_SIZE - 1)).2.2),
        true) := by
    unfold poll
    rw [hstage, if_pos hFpos, if_pos rfl]
  rw [hpolleq]
  refine ⟨?_, rfl, rfl, hi2, hi5, hi1⟩
  rw [hi4]
  simp

end UsbLogChannelBulk

/-- C5 counterexample: the claim says every successfully transmitted
packet consists of bytes drained in FIFO order from the ring buffer,
but immediately after `new()` the staging occupancy is 1 with a zeroed
staging buffer, so the first successful poll transmits the packet `[0]`
while the ring buffer — here holding the single queued byte 7 — is not
read at all: the transmitted byte did not come from the ring buffer. -/
theorem C5_poll_transmits_fifo_cex :
    ((UsbLogChannelBulk.new (⟨1, 0, [7, 0, 0, 0]⟩ : LogBufferInner 4)).poll
        true).2.1 = some [0] ∧
    ((UsbLogChannelBulk.new (⟨1, 0, [7, 0, 0, 0]⟩ : LogBufferInner 4)).poll
        true).2.2 = true ∧
    ((UsbLogChannelBulk.new (⟨1, 0, [7, 0, 0, 0]⟩ : LogBufferInner 4)).poll
        true).1.log_buffer = ⟨1, 0, [7, 0, 0, 0]⟩ ∧
    (⟨1, 0, [7, 0, 0, 0]⟩ : LogBufferInner 4).toList = [7] ∧
    some [0] ≠
      some ((⟨1, 0, [7, 0, 0, 0]⟩ : LogBufferInner 4).toList.take
        (EP_SIZE - 1)) := by
  decide

/-- C5 (amended): For every `poll` invocation that starts with an empty
staging buffer (so that everything it stages comes from the ring buffer
during this invocation — i.e. excluding the spurious initial packet left
by `new()`), a non-empty ring buffer and a successful endpoint write,
the transmitted packet contains between 1 and 63 bytes, is exactly the
FIFO prefix of the queued bytes, and the staging buffer is left empty;
in particular with 5 bytes queued one poll call transmits exactly those
5 bytes. -/
theorem C5_poll_transmits_fifo (N : Nat) (c : UsbLogChannelBulk N)
    (hInv : c.log_buffer.Inv) (hpkt : c.packet_buffer.length = EP_SIZE)
    (hlen : c.packet_buffer_len = 0) (hq : 0 < c.log_buffer.size) :
    (c.poll true).2.1 = some (c.log_buffer.toList.take (EP_SIZE - 1)) ∧
    (c.poll true).2.2 = true ∧
    1 ≤ (c.log_buffer.toList.take (EP_SIZE - 1)).length ∧
    (c.log_buffer.toList.take (EP_SIZE - 1)).length ≤ EP_SIZE - 1 ∧
    (c.poll true).1.packet_buffer_len = 0 ∧
    (c.poll true).1.log_buffer.toList =
      c.log_buffer.toList.drop (EP_SIZE - 1) := by
  obtain ⟨h1, h2, h3, _, h5, _⟩ :=
    UsbLogChannelBulk.poll_drain_spec c hInv hpkt hlen hq
  have hEP : EP_SIZE = 64 := rfl
  have hlength : (c.log_buffer.toList.take (EP_SIZE - 1)).length =
      min (EP_SIZE - 1) c.log_buffer.size := by
    rw [List.length_take, LogBufferInner.length_toList]
  exact ⟨h1, h2, by omega, by omega, h3, h5⟩

/-- Witness for C5 (amended), matching the spec's worked example: with
the 5 bytes 1..5 queued, an empty staging buffer and a ready endpoint,
one poll transmits exactly those 5 bytes and leaves the staging buffer
empty. -/
theorem C5_poll_transmits_fifo_witness :
    ((⟨5, 0, [1, 2, 3, 4, 5, 0, 0, 0]⟩ : LogBufferInner 8).Inv ∧
      ((⟨⟨5, 0, [1, 2, 3, 4, 5, 0, 0, 0]⟩, List.replicate EP_SIZE 0, 0⟩ :
          UsbLogChannelBulk 8).poll true).2.1 =
        some ((⟨5, 0, [1, 2, 3, 4, 5, 0, 0, 0]⟩ :
          LogBufferInner 8).toList.take (EP_SIZE - 1))) ∧
    ((⟨⟨5, 0, [1, 2, 3, 4, 5, 0, 0, 0]⟩, List.replicate EP_SIZE 0, 0⟩ :
        UsbLogChannelBulk 8).poll true).2.1 = some [1, 2, 3, 4, 5] ∧
    ((⟨⟨5, 0, [1, 2, 3, 4, 5, 0, 0, 0]⟩, List.replicate EP_SIZE 0, 0⟩ :
        UsbLogChannelBulk 8).poll true).1.packet_buffer_len = 0 :=
  ⟨⟨by decide,
    (C5_poll_transmits_fifo 8
      ⟨⟨5, 0, [1, 2, 3, 4, 5, 0, 0, 0]⟩, List.replicate EP_SIZE 0, 0⟩
      (by decide) (by decide) rfl (by decide)).1⟩,
   by decide, by decide⟩

/-- Helper: staging with a non-empty staging buffer keeps it as it is
(the fill loop is skipped). -/
lemma stage_of_staged {N : Nat} (lb : LogBufferInner N) (pkt : List Nat)
    (len : Nat) (h : len ≠ 0) :
    UsbLogChannelBulk.stage (⟨lb, pkt, len⟩ : UsbLogChannelBulk N) =
      (lb, pkt, len) := by
  unfold UsbLogChannelBulk.stage
  rw [if_neg (show ¬((⟨lb, pkt, len⟩ :
    UsbLogChannelBulk N).packet_buffer_len = 0) by dsimp only; omega)]

/-- C6: For every `poll` invocation in which the endpoint write fails,
the staging buffer's contents and occupancy length are exactly the bytes
of the failed attempt, and a subsequent `poll` invocation — whatever the
endpoint then does — attempts to transmit exactly the same bytes: no
staged byte is lost and none duplicated across the failed attempt. -/
theorem C6_poll_retry (N : Nat) (c : UsbLogChannelBulk N) (a : List Nat)
    (hsome : (c.poll false).2.1 = some a) :
    (c.poll false).1.packet_buffer.take
        (c.poll false).1.packet_buffer_len = a ∧
    (c.poll false).2.2 = false ∧
    ∀ e : Bool, ((c.poll false).1.poll e).2.1 = some a := by
  by_cases hp : 0 < (UsbLogChannelBulk.stage c).2.2
  · have hpoll : c.poll false =
        (⟨(UsbLogChannelBulk.stage c).1, (UsbLogChannelBulk.stage c).2.1,
            (UsbLogChannelBulk.stage c).2.2⟩,
          some ((UsbLogChannelBulk.stage c).2.1.take
            (UsbLogChannelBulk.stage c).2.2), false) := by
      unfold UsbLogChannelBulk.poll
      rw [if_pos hp, if_neg (by simp)]
    rw [hpoll] at hsome
    have ha : (UsbLogChannelBulk.stage c).2.1.take
        (UsbLogChannelBulk.stage c).2.2 = a := by
      simpa using hsome
    rw [hpoll]
    refine ⟨ha, rfl, fun e => ?_⟩
    unfold UsbLogChannelBulk.poll
    rw [stage_of_staged _ _ _ (by omega)]
    dsimp only
    rw [if_pos hp]
    cases e
    · rw [if_neg (by simp)]
      rw [← ha]
    · rw [if_pos rfl]
      rw [← ha]
  · have hpoll : c.poll false =
        (⟨(UsbLogChannelBulk.stage c).1, (UsbLogChannelBulk.stage c).2.1,
          (UsbLogChannelBulk.stage c).2.2⟩, none, false) := by
      unfold UsbLogChannelBulk.poll
      rw [if_neg hp]
    rw [hpoll] at hsome
    simp at hsome

/-- Witness for C6: a concrete channel with five staged bytes; the
failed poll attempts the packet of bytes 1..5 and the following poll
attempts exactly the same packet. -/
theorem C6_poll_retry_witness :
    ((⟨⟨0, 0, [0, 0, 0, 0]⟩, [1, 2, 3, 4, 5] ++ List.replicate 59 0, 5⟩ :
          UsbLogChannelBulk 4).poll false).2.1 = some [1, 2, 3, 4, 5] ∧
    (((⟨⟨0, 0, [0, 0, 0, 0]⟩, [1, 2, 3, 4, 5] ++ List.replicate 59 0, 5⟩ :
          UsbLogChannelBulk 4).poll false).1.poll true).2.1 =
      some [1, 2, 3, 4, 5] :=
  ⟨by decide,
   (C6_poll_retry 4
      ⟨⟨0, 0, [0, 0, 0, 0]⟩, [1, 2, 3, 4, 5] ++ List.replicate 59 0, 5⟩
      [1, 2, 3, 4, 5] (by decide)).2.2 true⟩

/-- C10: Immediately after constructing the bulk push/poll channel with
`new()`, the staging occupancy is 1 while no byte has been read from the
ring buffer, so the first poll with a ready endpoint transmits a
one-byte packet holding a zero byte that did not originate from the ring
buffer (the ring buffer is left untouched by that poll), and only
subsequent polls transmit ring-buffer data (the next successful poll
transmits the FIFO prefix of the queued bytes). -/
theorem C10_initial_packet (N : Nat) (lb : LogBufferInner N)
    (hInv : lb.Inv) :
    (UsbLogChannelBulk.new lb).packet_buffer_len = 1 ∧
    (UsbLogChannelBulk.new lb).log_buffer = lb ∧
    ((UsbLogChannelBulk.new lb).poll true).2.1 = some [0] ∧
    ((UsbLogChannelBulk.new lb).poll true).2.2 = true ∧
    ((UsbLogChannelBulk.new lb).poll true).1.log_buffer = lb ∧
    ((UsbLogChannelBulk.new lb).poll true).1.packet_buffer_len = 0 ∧
    (0 < lb.size →
      (((UsbLogChannelBulk.new lb).poll true).1.poll true).2.1 =
        some (lb.toList.take (EP_SIZE - 1))) := by
  have hstage1 : UsbLogChannelBulk.stage (UsbLogChannelBulk.new lb) =
      (lb, List.replicate EP_SIZE 0, 1) :=
    stage_of_staged lb (List.replicate EP_SIZE 0) 1 (by omega)
  have htake : (List.replicate EP_SIZE 0).take 1 = [0] := by decide
  have hpoll1 : (UsbLogChannelBulk.new lb).poll true =
      (⟨lb, List.replicate EP_SIZE 0, 0⟩, some [0], true) := by
    unfold UsbLogChannelBulk.poll
    rw [hstage1]
    dsimp only
    rw [if_pos (by omega : (0 : Nat) < 1), if_pos rfl, htake]
  refine ⟨rfl, rfl, by rw [hpoll1], by rw [hpoll1], by rw [hpoll1],
    by rw [hpoll1], fun hq => ?_⟩
  rw [hpoll1]
  obtain ⟨h1, _, _, _, _, _⟩ := UsbLogChannelBulk.poll_drain_spec
    (⟨lb, List.replicate EP_SIZE 0, 0⟩ : UsbLogChannelBulk N) hInv
    (by simp) rfl hq
  exact h1

/-- Witness for C10 on the concrete buffer holding the single queued
byte 7: the first poll transmits the spurious zero byte, the second
transmits the queued byte. -/
theorem C10_initial_packet_witness :
    ((⟨1, 0, [7, 0, 0, 0]⟩ : LogBufferInner 4).Inv ∧
      ((UsbLogChannelBulk.new (⟨1, 0, [7, 0, 0, 0]⟩ :
          LogBufferInner 4)).poll true).2.1 = some [0]) ∧
    (((UsbLogChannelBulk.new (⟨1, 0, [7, 0, 0, 0]⟩ :
        LogBufferInner 4)).poll true).1.poll true).2.1 = some [7] :=
  ⟨⟨by decide,
    (C10_initial_packet 4 ⟨1, 0, [7, 0, 0, 0]⟩ (by decide)).2.2.1⟩,
   by decide⟩

/-- `MAX_FILE_LEN` from `<LogBuffer as log::Log>::log` in log_buffer.rs. -/
def MAX_FILE_LEN : Nat := 32

/-- The UTF-8 bytes of an ASCII string literal (each character is one
byte).  Used to spell the sink's ASCII format-string fragments and the
decimal line-number digits as the byte sequences the program emits. -/
def asciiBytes (s : String) : List Nat :=
  s.data.map Char.toNat

/-- Rust `str::is_char_boundary(i)` on the UTF-8 byte sequence of the
string: true at the ends and wherever the byte is not a continuation
byte (`0x80..=0xBF`). -/
def is_char_boundary (f : List Nat) (i : Nat) : Bool :=
  decide (i = 0 ∨ i = f.length ∨
    (i < f.length ∧ (f.getD i 0 < 128 ∨ 192 ≤ f.getD i 0)))

/-- Number of characters of a (valid) UTF-8 byte sequence: one per
non-continuation byte. -/
def utf8Length (f : List Nat) : Nat :=
  (f.filter fun b => decide (b < 128 ∨ 192 ≤ b)).length

/-- The fields of a `log::Record` read by the sink: `target()`,
`file_static()`, `line()` (a `u32`) and the pre-formatted message
`args()`.  Rust string slices are their UTF-8 byte sequences, so the
string-valued fields are byte lists — `f.len()` is a byte count and
`&f[k..]` a byte-level suffix, exactly as in the source. -/
structure LogRecord where
  target : List Nat
  file : Option (List Nat)
  line : Option Nat
  args : List Nat
deriving DecidableEq, Repr

/-- The `(prefix, file)` pair computed by `log` in log_buffer.rs from
`file_static()`: the full name when `f.len() <= MAX_FILE_LEN` (bytes),
otherwise the marker `"..."` with the byte-level suffix
`&f[f.len() - MAX_FILE_LEN..]`.  That byte slicing panics when the
offset is not on a character boundary; the panic is modelled as
`none`. -/
def pfxFile (file : Option (List Nat)) : Option (List Nat × List Nat) :=
  match file with
  | some f =>
    if f.length ≤ MAX_FILE_LEN then some ([], f)
    else if is_char_boundary f (f.length - MAX_FILE_LEN) then
      some (asciiBytes "...", f.drop (f.length - MAX_FILE_LEN))
    else none
  | none => some (asciiBytes "???", [])

/-- The line rendered by `<LogBuffer as log::Log>::log` in log_buffer.rs
(the byte sequence handed byte-by-byte to the ring buffer by
`writeln!`).  Mirrors the source: the `PANIC` target check first,
otherwise the `(prefix, file)` pair and the format
`"[{}{}:{}] {}\n"` with `record.line().unwrap_or(0)` in decimal.
`none` models the panic of the byte slicing inside the prefix
computation. -/
def logLine (r : LogRecord) : Option (List Nat) :=
  if r.target = asciiBytes "PANIC" then
    some (asciiBytes "[PANIC] " ++ r.args ++ asciiBytes "\n")
  else
    match pfxFile r.file with
    | none => none
    | some pf =>
      some (asciiBytes "[" ++ pf.1 ++ pf.2 ++ asciiBytes ":" ++
        asciiBytes (Nat.repr ((r.line).getD 0)) ++ asciiBytes "] " ++
        r.args ++ asciiBytes "\n")

/-- The rendering rule as worded by the amended claim (for comparison
with `logLine`): a panic-target record renders as `[PANIC] <message>`;
otherwise prefix `???` with empty file when no file is known; prefix
`...` with the last `MAX_FILE_LEN` bytes (phrased here as a reversed
take of the reversal) when the file name is longer than `MAX_FILE_LEN`
bytes and the cut falls on a character boundary, no rendering (a panic)
when it does not; the bare file name otherwise; a missing line number
renders as 0; every rendered line ends in a line break. -/
def logLineSpec (r : LogRecord) : Option (List Nat) :=
  if r.target = asciiBytes "PANIC" then
    some (asciiBytes "[PANIC] " ++ r.args ++ asciiBytes "\n")
  else
    match r.file with
    | none =>
      some (asciiBytes "[???:" ++ asciiBytes (Nat.repr ((r.line).getD 0)) ++
        asciiBytes "] " ++ r.args ++ asciiBytes "\n")
    | some f =>
      if MAX_FILE_LEN < f.length then
        if is_char_boundary f (f.length - MAX_FILE_LEN) then
          some (asciiBytes "[..." ++ (f.reverse.take MAX_FILE_LEN).reverse ++
            asciiBytes ":" ++ asciiBytes (Nat.repr ((r.line).getD 0)) ++
            asciiBytes "] " ++ r.args ++ asciiBytes "\n")
        else none
      else
        some (asciiBytes "[" ++ f ++ asciiBytes ":" ++
          asciiBytes (Nat.repr ((r.line).getD 0)) ++ asciiBytes "] " ++
          r.args ++ asciiBytes "\n")

/-- Helper: dropping all but the last `n` elements is the reversed take
of the reversal. -/
lemma drop_length_sub (l : List Nat) (n : Nat) :
    l.drop (l.length - n) = (l.reverse.take n).reverse := by
  have h := List.rtake_eq_reverse_take_reverse (l := l) (n := n)
  simpa [List.rtake] using h

/-- C7 counterexample: the claim truncates by character count, the
program by byte count.  A file name of 20 two-byte characters (the
Greek letter mu, UTF-8 bytes 206 188, twenty times) has 20 characters —
not longer than 32 — so the claim says the full name is used with an
empty prefix; but its 40 bytes exceed `MAX_FILE_LEN`, so the program
renders the `...` prefix with only the last 32 bytes of the name. -/
theorem C7_log_line_format_cex :
    utf8Length ((List.replicate 20 [206, 188]).flatten) = 20 ∧
    utf8Length ((List.replicate 20 [206, 188]).flatten) ≤ MAX_FILE_LEN ∧
    ((List.replicate 20 [206, 188]).flatten).length = 40 ∧
    logLine ⟨asciiBytes "app", some ((List.replicate 20 [206, 188]).flatten),
        some 1, asciiBytes "m"⟩ =
      some (asciiBytes "[..." ++
        ((List.replicate 20 [206, 188]).flatten).drop 8 ++
        asciiBytes ":1] m\n") ∧
    logLine ⟨asciiBytes "app", some ((List.replicate 20 [206, 188]).flatten),
        some 1, asciiBytes "m"⟩ ≠
      some (asciiBytes "[" ++ (List.replicate 20 [206, 188]).flatten ++
        asciiBytes ":1] m\n") := by
  decide

/-- C7 (amended): For every log record, the sink renders exactly the
line the amended claim describes: `[PANIC] <message>` plus line break
for the panic target, otherwise `[<prefix><file>:<line>] <message>` plus
line break with prefix `???` and empty file when no file is known,
prefix `...` and the last 32 bytes of the name when the file name is
longer than 32 bytes and the cut falls on a UTF-8 character boundary
(no line at all — a panic — when it does not), the bare name otherwise,
and 0 for a missing line number. -/
theorem C7_log_line_format (r : LogRecord) : logLine r = logLineSpec r := by
  unfold logLine logLineSpec pfxFile
  by_cases hp : r.target = asciiBytes "PANIC"
  · simp [hp]
  · rw [if_neg hp, if_neg hp]
    cases hf : r.file with
    | none => rfl
    | some f =>
      dsimp only
      by_cases hl : f.length ≤ MAX_FILE_LEN
      · rw [if_pos hl, if_neg (show ¬MAX_FILE_LEN < f.length by omega)]
        rfl
      · rw [if_neg hl, if_pos (show MAX_FILE_LEN < f.length by omega)]
        by_cases hb : is_char_boundary f (f.length - MAX_FILE_LEN) = true
        · rw [if_pos hb, if_pos hb, drop_length_sub]
          rfl
        · rw [if_neg hb, if_neg hb]

/-- C8: For every string written through the log sink's byte-by-byte
write path (`write_str`), if the ring buffer fills up partway through,
all remaining bytes of that string are dropped while the bytes already
written stay queued — the queue gains exactly the longest prefix of the
string that fits in the remaining `N - 1 - size` free slots — and the
operation still reports success (`Ok`) to its caller. -/
theorem C8_write_str_drops_on_full (N : Nat) (lb : LogBufferInner N)
    (s : List Nat) (hInv : lb.Inv) :
    (lb.write_str s).2 = true ∧
    (lb.write_str s).1.toList = lb.toList ++ s.take (N - 1 - lb.size) := by
  obtain ⟨h1, _, h3⟩ := LogBufferInner.write_str_spec s lb hInv
  exact ⟨h1, h3⟩

/-- Witness for C8: a fresh 4-slot buffer (3 usable slots) receiving a
5-byte string keeps the first 3 bytes, drops the rest and reports
success. -/
theorem C8_write_str_drops_on_full_witness :
    ((LogBufferInner.new 4).Inv ∧
      ((LogBufferInner.new 4).write_str [10, 11, 12, 13, 14]).2 = true) ∧
    ((LogBufferInner.new 4).write_str [10, 11, 12, 13, 14]).1.toList =
      [10, 11, 12] :=
  ⟨⟨by decide,
    (C8_write_str_drops_on_full 4 (LogBufferInner.new 4)
      [10, 11, 12, 13, 14] (by decide)).1⟩,
   by decide⟩
